import Mathlib

/-! Fair proof automaton: states and successor iterators.

A shallow embedding of `src/soundness/fair_proof_aut.hpp`: the two state classes
(`ProofState`, `ProofGhostState`), the automaton's `get_init_state`, and the two
successor iterators (`ProofGhostSuccIterator`, `ProofSuccIterator`).

Conventions of the embedding.

* A `const ProofAutomaton &` member of an iterator is a read-only view of the provider;
  every iterator method takes the provider `p` as an explicit argument instead.
* A mutating method (`first`, `next`) returns the value it returns in C++ together with the
  iterator after the call.
* A `VertexSet::const_iterator` is the position it designates in the iteration order of the
  set, or `none` for a default-constructed iterator that has not been assigned: `begin()` is
  position `0`, `end()` is position `size()`. The operations `*` and `++` are defined only
  at a position that designates an element; `==` needs both iterators to designate
  positions of the set.
* An operation that C++ leaves undefined has no result: the method that performs it
  returns `none`.
* `new T(...)` is the value of the constructed object; where the identity of the object
  matters, the creation is made explicit through a history of created objects (`Heap`).
-/

namespace FairProofAut

/-! ## Types declared in `proof.hpp` and in the automata library -/

/-- Modelled from the spec: the `Vertex` type, declared in `proof.hpp` and not in
`fair_proof_aut.hpp`. The spec describes it as an identifier of a proof-graph node that has
a stable integer identity `id()` and a total order; a vertex is represented by its identity
and ordered by it. -/
structure Vertex where
  id : Nat
deriving DecidableEq, Repr

/-- Modelled from the spec: one annotation of a vertex (`proof.hpp`), kept as a number. -/
abbrev Tag := Nat

/-- Modelled from the spec: the `TagVector` type of `proof.hpp`, an ordered sequence of
annotations. A `const TagVector &` into the provider's storage is represented by the
sequence it refers to; the provider is never mutated while states exist. -/
abbrev TagVector := List Tag

/-- Modelled from the spec: the `VertexSet` type of `proof.hpp`, the successor set of one
vertex listed in its (provider-defined, stable) iteration order. Being a set, it lists no
vertex twice. -/
structure VertexSet where
  elems : List Vertex
  nodup : elems.Nodup

/-- Position designated by `begin()`. -/
def VertexSet.begin (_s : VertexSet) : Nat := 0

/-- Position designated by `end()`. -/
def VertexSet.end_ (s : VertexSet) : Nat := s.elems.length

/-- Dereference `*it` of a `const_iterator` at position `i`: the element there, and no result
when the position designates no element (the end position and everything after it). -/
def VertexSet.deref (s : VertexSet) (i : Nat) : Option Vertex := s.elems[i]?

/-- Increment `++it` of a `const_iterator` at position `i`: the next position when `i`
designates an element, and no result otherwise (incrementing `end()` is undefined). -/
def VertexSet.incr (s : VertexSet) (i : Nat) : Option Nat :=
  if i < s.elems.length then some (i + 1) else none

/-- A set of acceptance marks (`spot::acc_cond::mark_t`), as a bit mask. -/
abbrev mark_t := Nat

/-- The acceptance condition of the automata library, reduced to its number of
acceptance sets. -/
structure acc_cond where
  num_sets : Nat
deriving DecidableEq, Repr

/-- The mark set holding every acceptance set `0 .. num_sets - 1`. -/
def acc_cond.all_sets (c : acc_cond) : mark_t := 2 ^ c.num_sets - 1

/-- Effect of `set_generalized_buchi(n)`: a condition with `n` acceptance sets. -/
def set_generalized_buchi (n : Nat) : acc_cond := ⟨n⟩

/-- The provider the iterators hold a reference to (`const ProofAutomaton & proof`), given by
the four accessors the header calls on it. -/
structure ProofAutomaton where
  get_initial_vertex : Vertex
  get_successors : Vertex → VertexSet
  get_tags_of_vertex : Vertex → TagVector
  acc : acc_cond

/-! ## States -/

/-- The class `ProofState`: a vertex together with a reference to its tags. -/
structure ProofState where
  vertex : Vertex
  tags : TagVector
deriving DecidableEq, Repr

/-- The class `ProofGhostState`: it has no data members. -/
structure ProofGhostState where
deriving DecidableEq, Repr

/-- A `spot::state *` handed out by this header: an object of one of the two state classes. -/
inductive State where
  | proof (s : ProofState)
  | ghost (g : ProofGhostState)
deriving DecidableEq, Repr

/-- Method `ProofState::hash`: `return vertex.id();` -/
def ProofState.hash (s : ProofState) : Nat := s.vertex.id

/-- Method `ProofState::clone`: `return new ProofState(vertex, tags);` -/
def ProofState.clone (s : ProofState) : State := State.proof ⟨s.vertex, s.tags⟩

/-- Method `ProofGhostState::hash`: `return 0;` -/
def ProofGhostState.hash (_g : ProofGhostState) : Nat := 0

/-- Method `ProofGhostState::clone`: `return new ProofGhostState();` -/
def ProofGhostState.clone (_g : ProofGhostState) : State := State.ghost ⟨⟩

/-- Virtual call `s->hash()`. -/
def State.hash : State → Nat
  | State.proof s => s.hash
  | State.ghost g => g.hash

/-- Virtual call `s->clone()`. -/
def State.clone : State → State
  | State.proof s => s.clone
  | State.ghost g => g.clone

/-- Modelled from the spec: the body of `ProofState::compare`, which the header only
declares. The spec asks for a total order determined by vertex identity alone, with one
fixed cross-kind rule under which a ghost state orders before every vertex state. -/
def ProofState.compare (s : ProofState) (other : State) : Int :=
  match other with
  | State.ghost _ => 1
  | State.proof o =>
    if s.vertex.id < o.vertex.id then -1
    else if s.vertex.id = o.vertex.id then 0
    else 1

/-- Modelled from the spec: the body of `ProofGhostState::compare`, which the header only
declares: equal to every ghost state, before every vertex state. -/
def ProofGhostState.compare (_g : ProofGhostState) (other : State) : Int :=
  match other with
  | State.ghost _ => 0
  | State.proof _ => -1

/-- Virtual call `s->compare(other)`. -/
def State.compare : State → State → Int
  | State.proof s, other => s.compare other
  | State.ghost g, other => g.compare other

/-- Position of a state in the order: every ghost state at `-1`, a vertex state at the
identity of its vertex. Used to reason about `compare`. -/
def State.rank : State → Int
  | State.proof s => (s.vertex.id : Int)
  | State.ghost _ => -1

/-! ## The automaton -/

/-- The class `FairProofAutomaton`, reduced to what its constructor fixes: the capacity hint
passed on to the proof graph and the acceptance condition. -/
structure FairProofAutomaton where
  max_vertices_log2 : Nat
  acc : acc_cond
deriving DecidableEq, Repr

/-- The constructor: `set_generalized_buchi(2)`. -/
def FairProofAutomaton.ctor (max_vertices_log2 : Nat) : FairProofAutomaton :=
  ⟨max_vertices_log2, set_generalized_buchi 2⟩

/-- Method `FairProofAutomaton::get_init_state`: `return new ProofGhostState();` -/
def FairProofAutomaton.get_init_state (_a : FairProofAutomaton) : State := State.ghost ⟨⟩

/-! ## The ghost successor iterator -/

/-- The class `ProofGhostSuccIterator`: its mutable member is the flag `finished`. -/
structure ProofGhostSuccIterator where
  finished : Bool
deriving DecidableEq, Repr

namespace ProofGhostSuccIterator

/-- The constructor: `finished(false)`. -/
def ctor : ProofGhostSuccIterator := ⟨false⟩

/-- Method `done()`: `return finished;` -/
def done (it : ProofGhostSuccIterator) : Bool := it.finished

/-- Method `first()`: `finished = false; return !done();` -/
def first (it : ProofGhostSuccIterator) : Bool × ProofGhostSuccIterator :=
  let it1 : ProofGhostSuccIterator := { it with finished := false }
  (!it1.done, it1)

/-- Method `next()`: `finished = true; return !done();` -/
def next (it : ProofGhostSuccIterator) : Bool × ProofGhostSuccIterator :=
  let it1 : ProofGhostSuccIterator := { it with finished := true }
  (!it1.done, it1)

/-- Method `dst()`: `Vertex v = proof.get_initial_vertex(); return new ProofState(v,
proof.get_tags_of_vertex(v));`. The result type is the one shared by both iterators:
`some s` when the call returns the state `s`, `none` when it returns no state. -/
def dst (p : ProofAutomaton) (_it : ProofGhostSuccIterator) : Option State :=
  let v := p.get_initial_vertex
  some (State.proof ⟨v, p.get_tags_of_vertex v⟩)

/-- Method `cond()`: `return proof.get_initial_vertex();` -/
def cond (p : ProofAutomaton) (_it : ProofGhostSuccIterator) : Option Vertex :=
  some p.get_initial_vertex

/-- Method `acc()`: `return proof.acc().all_sets();` -/
def acc (p : ProofAutomaton) (_it : ProofGhostSuccIterator) : mark_t :=
  p.acc.all_sets

end ProofGhostSuccIterator

/-! ## The vertex successor iterator -/

/-- The class `ProofSuccIterator`: the vertex it enumerates and the cursor `successor` into
that vertex's successor set. The cursor is `none` as long as it is the default-constructed
iterator the constructor leaves, and `some i` once it designates position `i`. -/
structure ProofSuccIterator where
  vertex : Vertex
  successor : Option Nat
deriving DecidableEq, Repr

namespace ProofSuccIterator

/-- The constructor: `vertex(v)`; the member `successor` is default-constructed. -/
def ctor (v : Vertex) : ProofSuccIterator := ⟨v, none⟩

/-- The comparison `successor == proof.get_successors(vertex).end()` for a cursor at
position `i` of the successor set of `v`. -/
def at_end (p : ProofAutomaton) (v : Vertex) (i : Nat) : Bool :=
  i == (p.get_successors v).end_

/-- Method `done()`: `return successor == proof.get_successors(vertex).end();`. It has no
result on a cursor that has never been positioned. -/
def done (p : ProofAutomaton) (it : ProofSuccIterator) : Option Bool :=
  it.successor.map fun i => at_end p it.vertex i

/-- Method `first()`: `successor = proof.get_successors(vertex).begin(); return !done();`.
The assignment positions the cursor whatever it held, so the `done()` that follows is the
comparison of `begin()` with `end()`. -/
def first (p : ProofAutomaton) (it : ProofSuccIterator) : Bool × ProofSuccIterator :=
  let b := (p.get_successors it.vertex).begin
  (!at_end p it.vertex b, { it with successor := some b })

/-- Method `next()`: `++successor; return !done();`. The body increments without testing
`done()` first; the increment is defined only while the cursor designates a successor, so
on a cursor at `end()` and on a cursor never positioned the call has no result. -/
def next (p : ProofAutomaton) (it : ProofSuccIterator) : Option (Bool × ProofSuccIterator) :=
  (it.successor.bind fun i => (p.get_successors it.vertex).incr i).map fun j =>
    (!at_end p it.vertex j, { it with successor := some j })

/-- Method `dst()`: `return new ProofState(*successor, proof.get_tags_of_vertex(*successor));` -/
def dst (p : ProofAutomaton) (it : ProofSuccIterator) : Option State :=
  (it.successor.bind fun i => (p.get_successors it.vertex).deref i).map
    fun s => State.proof ⟨s, p.get_tags_of_vertex s⟩

/-- Method `cond()`: `return *successor;` -/
def cond (p : ProofAutomaton) (it : ProofSuccIterator) : Option Vertex :=
  it.successor.bind fun i => (p.get_successors it.vertex).deref i

/-- Method `acc()`: `return proof.acc().all_sets();` -/
def acc (p : ProofAutomaton) (_it : ProofSuccIterator) : mark_t :=
  p.acc.all_sets

end ProofSuccIterator

/-! ## Driving an iterator -/

/-- The caller's loop over an iterator that has been positioned by `first()`:
`while (!it->done()) { read it->dst(); it->next(); }`, run for at most `fuel` readings.
The result is the list of values read; there is none when the iterator is still not done
after `fuel` readings, or when a call of `done()` or `next()` made by the loop has no
result. -/
def drive {σ δ : Type} (done : σ → Option Bool) (dst : σ → δ) (next : σ → Option σ) :
    Nat → σ → Option (List δ)
  | 0, it =>
    match done it with
    | some true => some []
    | _ => none
  | fuel + 1, it =>
    match done it with
    | some true => some []
    | some false =>
      (next it).bind fun it1 => (drive done dst next fuel it1).map fun rest => dst it :: rest
    | none => none

/-- The loop over a ghost successor iterator, `first()` included. -/
def ProofGhostSuccIterator.run (p : ProofAutomaton) (fuel : Nat)
    (it : ProofGhostSuccIterator) : Option (List (Option State)) :=
  drive (fun i => some (ProofGhostSuccIterator.done i)) (ProofGhostSuccIterator.dst p)
    (fun i => some (ProofGhostSuccIterator.next i).2) fuel (ProofGhostSuccIterator.first it).2

/-- The loop over a vertex successor iterator, `first()` included. -/
def ProofSuccIterator.run (p : ProofAutomaton) (fuel : Nat)
    (it : ProofSuccIterator) : Option (List (Option State)) :=
  drive (ProofSuccIterator.done p) (ProofSuccIterator.dst p)
    (fun i => (ProofSuccIterator.next p i).map fun r => r.2) fuel
    (ProofSuccIterator.first p it).2

/-- The state wrapping vertex `s` with the provider's tags for it:
`new ProofState(s, proof.get_tags_of_vertex(s))`. -/
def wrap (p : ProofAutomaton) (s : Vertex) : State :=
  State.proof ⟨s, p.get_tags_of_vertex s⟩

/-- The iterator after `k` further calls of `next()`. -/
def ProofGhostSuccIterator.nexts : Nat → ProofGhostSuccIterator → ProofGhostSuccIterator
  | 0, it => it
  | k + 1, it => ProofGhostSuccIterator.nexts k (ProofGhostSuccIterator.next it).2

/-! ## Calls in sequence -/

/-- A call made on an iterator by its user: `first()` or `next()`. -/
inductive Call where
  | first
  | next
deriving DecidableEq, Repr

/-- The vertex successor iterator after the calls `cs`, made in order; there is none when
one of the calls has no result. -/
def ProofSuccIterator.calls (p : ProofAutomaton) :
    List Call → ProofSuccIterator → Option ProofSuccIterator
  | [], it => some it
  | Call.first :: cs, it => ProofSuccIterator.calls p cs (ProofSuccIterator.first p it).2
  | Call.next :: cs, it =>
    (ProofSuccIterator.next p it).bind fun r => ProofSuccIterator.calls p cs r.2

/-- The ghost successor iterator after the calls `cs`, made in order. -/
def ProofGhostSuccIterator.calls :
    List Call → ProofGhostSuccIterator → ProofGhostSuccIterator
  | [], it => it
  | Call.first :: cs, it => ProofGhostSuccIterator.calls cs (ProofGhostSuccIterator.first it).2
  | Call.next :: cs, it => ProofGhostSuccIterator.calls cs (ProofGhostSuccIterator.next it).2

/-! ## Object creation

Where the identity of an object matters, `new` is made explicit: the objects created so far
are kept in order of creation, and an object is identified by its place in that order. -/

/-- The state objects created by `new` so far, oldest first. -/
structure Heap where
  objs : List State
deriving DecidableEq, Repr

/-- Expression `new T(...)` constructing the object `s`: the identity of the new object
together with the extended history. -/
def Heap.alloc (h : Heap) (s : State) : Nat × Heap :=
  (h.objs.length, ⟨h.objs ++ [s]⟩)

/-- The object with identity `i`, when one has been created. -/
def Heap.get (h : Heap) (i : Nat) : Option State := h.objs[i]?

/-- Method `FairProofAutomaton::get_init_state` with its `new` explicit:
`return new ProofGhostState();` returns a pointer to an object created by this call. -/
def FairProofAutomaton.get_init_state_new (a : FairProofAutomaton) (h : Heap) : Nat × Heap :=
  h.alloc a.get_init_state

/-! ## States handed out by the automaton -/

/-- The states the header hands out for provider `p`: the result of `get_init_state()`, a
destination returned by `dst()` of either iterator in any of its states, and a clone of
such a state. -/
inductive Produced (p : ProofAutomaton) : State → Prop where
  | init (a : FairProofAutomaton) : Produced p a.get_init_state
  | ghost_dst (it : ProofGhostSuccIterator) (s : State)
      (h : ProofGhostSuccIterator.dst p it = some s) : Produced p s
  | succ_dst (it : ProofSuccIterator) (s : State)
      (h : ProofSuccIterator.dst p it = some s) : Produced p s
  | clone (s : State) (h : Produced p s) : Produced p s.clone

/-! ## A concrete provider

Initial vertex `A`; successors of `A` are `B`, `C` in this order; `B` and `C` have no
successors. -/

/-- Vertex `A`. -/
def exA : Vertex := ⟨0⟩

/-- Vertex `B`. -/
def exB : Vertex := ⟨1⟩

/-- Vertex `C`. -/
def exC : Vertex := ⟨2⟩

/-- The provider of the scenario, with tags `[id, 7]` on each vertex and two acceptance
sets. -/
def exProof : ProofAutomaton where
  get_initial_vertex := exA
  get_successors := fun v =>
    if v.id = 0 then ⟨[exB, exC], by decide⟩ else ⟨[], List.nodup_nil⟩
  get_tags_of_vertex := fun v => [v.id, 7]
  acc := set_generalized_buchi 2

/-! ## Basic facts about the vertex successor iterator -/

theorem ProofSuccIterator.first_snd (p : ProofAutomaton) (it : ProofSuccIterator) :
    (ProofSuccIterator.first p it).2 = ⟨it.vertex, some 0⟩ := rfl

theorem ProofSuccIterator.done_at (p : ProofAutomaton) (v : Vertex) (i : Nat) :
    ProofSuccIterator.done p ⟨v, some i⟩
      = some (i == (p.get_successors v).elems.length) := rfl

theorem ProofSuccIterator.done_iff (p : ProofAutomaton) (it : ProofSuccIterator) :
    ProofSuccIterator.done p it = some true ↔
      it.successor = some (p.get_successors it.vertex).elems.length := by
  obtain ⟨v, c⟩ := it
  cases c with
  | none => simp [ProofSuccIterator.done]
  | some i => simp [ProofSuccIterator.done_at]

theorem ProofSuccIterator.next_of_lt (p : ProofAutomaton) (v : Vertex) (i : Nat)
    (h : i < (p.get_successors v).elems.length) :
    ProofSuccIterator.next p ⟨v, some i⟩
      = some (!ProofSuccIterator.at_end p v (i + 1), ⟨v, some (i + 1)⟩) := by
  simp [ProofSuccIterator.next, VertexSet.incr, h]

theorem ProofSuccIterator.next_of_ge (p : ProofAutomaton) (v : Vertex) (i : Nat)
    (h : (p.get_successors v).elems.length ≤ i) :
    ProofSuccIterator.next p ⟨v, some i⟩ = none := by
  have h1 : ¬ i < (p.get_successors v).elems.length := by omega
  simp [ProofSuccIterator.next, VertexSet.incr, h1]

/-- When `next()` has a result, the cursor designated a successor and now designates the
following position. -/
theorem ProofSuccIterator.next_eq_some (p : ProofAutomaton) (it : ProofSuccIterator)
    (b : Bool) (it1 : ProofSuccIterator) (h : ProofSuccIterator.next p it = some (b, it1)) :
    ∃ i : Nat, it.successor = some i ∧ i < (p.get_successors it.vertex).elems.length ∧
      it1 = ⟨it.vertex, some (i + 1)⟩ ∧ b = !ProofSuccIterator.at_end p it.vertex (i + 1) := by
  obtain ⟨v, c⟩ := it
  cases c with
  | none => simp [ProofSuccIterator.next] at h
  | some i =>
    by_cases hlt : i < (p.get_successors v).elems.length
    · rw [ProofSuccIterator.next_of_lt p v i hlt] at h
      simp only [Option.some.injEq, Prod.mk.injEq] at h
      exact ⟨i, rfl, hlt, h.2.symm, h.1.symm⟩
    · rw [ProofSuccIterator.next_of_ge p v i (by omega)] at h
      cases h

theorem ProofSuccIterator.dst_of_lt (p : ProofAutomaton) (v : Vertex) (i : Nat)
    (h : i < (p.get_successors v).elems.length) :
    ProofSuccIterator.dst p ⟨v, some i⟩
      = some (wrap p ((p.get_successors v).elems.get ⟨i, h⟩)) := by
  simp [ProofSuccIterator.dst, VertexSet.deref, wrap, List.getElem?_eq_getElem h]

/-- From cursor position `i ≤ n`, with at least `n - i` readings allowed, the loop reads the
successors from position `i` on and stops at the end of the set. -/
theorem ProofSuccIterator.drive_from (p : ProofAutomaton) (v : Vertex) :
    ∀ (fuel i : Nat), i ≤ (p.get_successors v).elems.length →
      (p.get_successors v).elems.length - i ≤ fuel →
      drive (ProofSuccIterator.done p) (ProofSuccIterator.dst p)
          (fun j => (ProofSuccIterator.next p j).map fun r => r.2) fuel ⟨v, some i⟩
        = some (((p.get_successors v).elems.drop i).map fun s => some (wrap p s)) := by
  intro fuel
  induction fuel with
  | zero =>
    intro i hi hf
    have hin : i = (p.get_successors v).elems.length := by omega
    have hdrop : (p.get_successors v).elems.drop i = [] :=
      List.drop_eq_nil_of_le (by omega)
    simp [drive, ProofSuccIterator.done_at, hin]
  | succ fuel ih =>
    intro i hi hf
    by_cases hin : i = (p.get_successors v).elems.length
    · have hdrop : (p.get_successors v).elems.drop i = [] :=
        List.drop_eq_nil_of_le (by omega)
      simp [drive, ProofSuccIterator.done_at, hin]
    · have hlt : i < (p.get_successors v).elems.length := by omega
      have hd : ProofSuccIterator.done p ⟨v, some i⟩ = some false := by
        rw [ProofSuccIterator.done_at]
        simp [hin]
      have hrest := ih (i + 1) (by omega) (by omega)
      have hdst := ProofSuccIterator.dst_of_lt p v i hlt
      have hnext := ProofSuccIterator.next_of_lt p v i hlt
      have hstep : drive (ProofSuccIterator.done p) (ProofSuccIterator.dst p)
          (fun j => (ProofSuccIterator.next p j).map fun r => r.2) (fuel + 1) ⟨v, some i⟩
          = (drive (ProofSuccIterator.done p) (ProofSuccIterator.dst p)
              (fun j => (ProofSuccIterator.next p j).map fun r => r.2) fuel
              ⟨v, some (i + 1)⟩).map
              fun rest => ProofSuccIterator.dst p ⟨v, some i⟩ :: rest := by
        simp [drive, hd, hnext]
      rw [hstep, hrest, hdst, List.drop_eq_getElem_cons hlt]
      rfl

theorem ProofSuccIterator.run_eq (p : ProofAutomaton) (it : ProofSuccIterator) (fuel : Nat)
    (h : (p.get_successors it.vertex).elems.length ≤ fuel) :
    ProofSuccIterator.run p fuel it
      = some ((p.get_successors it.vertex).elems.map fun s => some (wrap p s)) := by
  have := ProofSuccIterator.drive_from p it.vertex fuel 0 (Nat.zero_le _) (by omega)
  simpa [ProofSuccIterator.run, ProofSuccIterator.first_snd] using this

theorem wrap_injective (p : ProofAutomaton) : Function.Injective (wrap p) := by
  intro a b h
  simp only [wrap, State.proof.injEq, ProofState.mk.injEq] at h
  exact h.1

/-! ## Basic facts about the ghost successor iterator -/

theorem ProofGhostSuccIterator.nexts_finished (k : Nat) (it : ProofGhostSuccIterator)
    (h : it.finished = true) :
    (ProofGhostSuccIterator.nexts k it).finished = true := by
  induction k generalizing it with
  | zero => exact h
  | succ k ih => exact ih _ rfl

/-! ## Hash and comparison -/

/-- The comparison is the three-way comparison of ranks. -/
theorem State.compare_eq_rank (s t : State) :
    State.compare s t
      = if s.rank < t.rank then -1 else if s.rank = t.rank then 0 else 1 := by
  cases s with
  | proof a =>
    cases t with
    | proof b =>
      simp only [State.compare, ProofState.compare, State.rank, Nat.cast_lt, Nat.cast_inj]
    | ghost g =>
      have h1 : ¬ ((a.vertex.id : Int) < -1) := by omega
      have h2 : ¬ ((a.vertex.id : Int) = -1) := by omega
      simp only [State.compare, ProofState.compare, State.rank, h1, h2, if_false]
  | ghost g =>
    cases t with
    | proof b =>
      have h1 : (-1 : Int) < (b.vertex.id : Int) := by omega
      simp only [State.compare, ProofGhostState.compare, State.rank, h1, if_true]
    | ghost g1 => rfl

/-- States that compare equal have equal hashes. -/
theorem State.hash_eq_of_compare_eq_zero (s t : State) (h : State.compare s t = 0) :
    s.hash = t.hash := by
  cases s with
  | proof a =>
    cases t with
    | proof b =>
      rw [State.compare_eq_rank] at h
      simp only [State.rank] at h
      simp only [State.hash, ProofState.hash]
      split_ifs at h <;> omega
    | ghost g => simp [State.compare, ProofState.compare] at h
  | ghost g =>
    cases t with
    | proof b => simp [State.compare, ProofGhostState.compare] at h
    | ghost g1 => rfl

/-! ## Object creation -/

/-- The object created by `new` is found under the identity returned, also after further
objects have been created. -/
theorem Heap.get_alloc (h : Heap) (s : State) (later : List State) :
    (Heap.mk ((h.alloc s).2.objs ++ later)).get (h.alloc s).1 = some s := by
  show ((h.objs ++ [s]) ++ later)[h.objs.length]? = some s
  rw [List.append_assoc, List.getElem?_append_right (Nat.le_refl _)]
  simp

/-- The identity returned by `new` is the identity of no object created before. -/
theorem Heap.get_alloc_before (h : Heap) (s : State) : h.get (h.alloc s).1 = none := by
  simp [Heap.get, Heap.alloc]

/-! ## Calls in sequence -/

/-- On a DONE iterator `next()` has no result. -/
theorem ProofSuccIterator.next_of_done (p : ProofAutomaton) (it : ProofSuccIterator)
    (h : ProofSuccIterator.done p it = some true) :
    ProofSuccIterator.next p it = none := by
  obtain ⟨v, c⟩ := it
  have hc := (ProofSuccIterator.done_iff p ⟨v, c⟩).1 h
  simp only at hc
  subst hc
  exact ProofSuccIterator.next_of_ge p v _ (Nat.le_refl _)

/-! ## The claims -/

/-- C1: for every vertex whose successor set, in provider order, is `s_0, ..., s_{n-1}`,
driving a `ProofSuccIterator` over it with `first()` and then, while `done()` is false,
reading `dst()` and calling `next()`, terminates (any allowance of at least `n` readings is
enough) and yields exactly `n` transitions; the `i`-th destination is the `ProofState`
wrapping `s_i` with the provider's tags of `s_i`, so the destinations are the successors in
provider order and each successor is produced exactly once. -/
theorem C1_succ_iterator_enumerates_successors (p : ProofAutomaton) (it : ProofSuccIterator)
    (fuel : Nat) (hfuel : (p.get_successors it.vertex).elems.length ≤ fuel) :
    ∃ out : List (Option State),
      ProofSuccIterator.run p fuel it = some out ∧
      out.length = (p.get_successors it.vertex).elems.length ∧
      (∀ (i : Nat) (hi : i < (p.get_successors it.vertex).elems.length),
        out[i]? = some (some (State.proof
          ⟨(p.get_successors it.vertex).elems.get ⟨i, hi⟩,
           p.get_tags_of_vertex ((p.get_successors it.vertex).elems.get ⟨i, hi⟩)⟩))) ∧
      out = (p.get_successors it.vertex).elems.map (fun s => some (wrap p s)) ∧
      out.Nodup ∧
      (∀ s, s ∈ (p.get_successors it.vertex).elems ↔ some (wrap p s) ∈ out) := by
  have hinj : Function.Injective (fun s => some (wrap p s)) := fun a b h =>
    wrap_injective p (Option.some.inj h)
  refine ⟨_, ProofSuccIterator.run_eq p it fuel hfuel, by simp, ?_, rfl, ?_, ?_⟩
  · intro i hi
    simp [List.getElem?_map, List.getElem?_eq_getElem hi, wrap]
  · exact (p.get_successors it.vertex).nodup.map hinj
  · intro s
    exact (List.mem_map_of_injective hinj).symm

/-- Witness for C1 on the scenario provider: a freshly constructed iterator over `A` yields
the states for `B` and `C`, in this order. -/
theorem C1_succ_iterator_enumerates_successors_witness :
    ∃ out : List (Option State),
      ProofSuccIterator.run exProof 2 (ProofSuccIterator.ctor exA) = some out ∧
      out.length = 2 ∧
      out = [some (wrap exProof exB), some (wrap exProof exC)] := by
  obtain ⟨out, h1, h2, _, h4, _, _⟩ :=
    C1_succ_iterator_enumerates_successors exProof (ProofSuccIterator.ctor exA) 2 (by decide)
  exact ⟨out, h1, h2, h4⟩

/-- C2: a freshly constructed `ProofGhostSuccIterator` yields exactly one transition:
`first()` returns true, `dst()` is then the `ProofState` wrapping the provider's initial
vertex with its tags, the following `next()` returns false and makes `done()` true, every
further `next()` returns false and leaves `done()` true, and the caller's loop reads exactly
this one destination (with no reading allowed it has not finished). -/
theorem C2_ghost_iterator_single_transition (p : ProofAutomaton) :
    (ProofGhostSuccIterator.first ProofGhostSuccIterator.ctor).1 = true ∧
    ProofGhostSuccIterator.done
      (ProofGhostSuccIterator.first ProofGhostSuccIterator.ctor).2 = false ∧
    ProofGhostSuccIterator.dst p (ProofGhostSuccIterator.first ProofGhostSuccIterator.ctor).2
      = some (State.proof
          ⟨p.get_initial_vertex, p.get_tags_of_vertex p.get_initial_vertex⟩) ∧
    (ProofGhostSuccIterator.next
      (ProofGhostSuccIterator.first ProofGhostSuccIterator.ctor).2).1 = false ∧
    ProofGhostSuccIterator.done (ProofGhostSuccIterator.next
      (ProofGhostSuccIterator.first ProofGhostSuccIterator.ctor).2).2 = true ∧
    (∀ k : Nat,
      ProofGhostSuccIterator.done (ProofGhostSuccIterator.nexts k
        (ProofGhostSuccIterator.next
          (ProofGhostSuccIterator.first ProofGhostSuccIterator.ctor).2).2) = true ∧
      (ProofGhostSuccIterator.next (ProofGhostSuccIterator.nexts k
        (ProofGhostSuccIterator.next
          (ProofGhostSuccIterator.first ProofGhostSuccIterator.ctor).2).2)).1 = false) ∧
    (∀ fuel : Nat, ProofGhostSuccIterator.run p (fuel + 1) ProofGhostSuccIterator.ctor
      = some [some (State.proof
          ⟨p.get_initial_vertex, p.get_tags_of_vertex p.get_initial_vertex⟩)]) ∧
    ProofGhostSuccIterator.run p 0 ProofGhostSuccIterator.ctor = none := by
  refine ⟨rfl, rfl, rfl, rfl, rfl, ?_, ?_, rfl⟩
  · intro k
    exact ⟨ProofGhostSuccIterator.nexts_finished k _ rfl, rfl⟩
  · intro fuel
    cases fuel <;> rfl

/-- C3: for every vertex, `first()` on a `ProofSuccIterator` over it returns true if and
only if the successor set of the vertex is non-empty; when the set is empty, `done()` is
true immediately after `first()` and the caller's loop reads zero transitions. -/
theorem C3_first_true_iff_successors_nonempty (p : ProofAutomaton)
    (it : ProofSuccIterator) :
    ((ProofSuccIterator.first p it).1 = true ↔ (p.get_successors it.vertex).elems ≠ []) ∧
    ((p.get_successors it.vertex).elems = [] →
      (ProofSuccIterator.first p it).1 = false ∧
      ProofSuccIterator.done p (ProofSuccIterator.first p it).2 = some true ∧
      ∀ fuel : Nat, ProofSuccIterator.run p fuel it = some []) := by
  have hfirst : (ProofSuccIterator.first p it).1 = true ↔
      (p.get_successors it.vertex).elems ≠ [] := by
    simp only [ProofSuccIterator.first, ProofSuccIterator.at_end, VertexSet.begin,
      VertexSet.end_, Bool.not_eq_true', beq_eq_false_iff_ne, ne_eq]
    constructor
    · intro h hnil
      exact h (by simp [hnil])
    · intro h hlen
      exact h (List.length_eq_zero.1 hlen.symm)
  refine ⟨hfirst, ?_⟩
  intro hnil
  refine ⟨?_, ?_, ?_⟩
  · rw [← Bool.not_eq_true]
    exact fun h => (hfirst.1 h) hnil
  · rw [ProofSuccIterator.done_iff, ProofSuccIterator.first_snd]
    simp [hnil]
  · intro fuel
    have h := ProofSuccIterator.run_eq p it fuel (by simp [hnil])
    simpa [hnil] using h

/-- Witness for C3 on the scenario provider: `B` has no successors, `A` has some. -/
theorem C3_first_true_iff_successors_nonempty_witness :
    (ProofSuccIterator.first exProof (ProofSuccIterator.ctor exA)).1 = true ∧
    (ProofSuccIterator.first exProof (ProofSuccIterator.ctor exB)).1 = false ∧
    ProofSuccIterator.done exProof
      (ProofSuccIterator.first exProof (ProofSuccIterator.ctor exB)).2 = some true ∧
    ProofSuccIterator.run exProof 0 (ProofSuccIterator.ctor exB) = some [] :=
  ⟨(C3_first_true_iff_successors_nonempty exProof (ProofSuccIterator.ctor exA)).1.2
    (by decide),
   ((C3_first_true_iff_successors_nonempty exProof (ProofSuccIterator.ctor exB)).2
    (by decide)).1,
   ((C3_first_true_iff_successors_nonempty exProof (ProofSuccIterator.ctor exB)).2
    (by decide)).2.1,
   ((C3_first_true_iff_successors_nonempty exProof (ProofSuccIterator.ctor exB)).2
    (by decide)).2.2 0⟩

/-- C4, evaluated where the code departs from it. On the scenario provider the iterator
over `B` (no successors) is DONE right after `first()`, and the iterator over `A` is DONE
after `first(); next(); next()`. In both, one more `next()` executes `++successor` on a
cursor at `end()`, which is undefined: the call has no result, so it neither returns false
nor leaves `done()` true. -/
theorem C4_next_after_done_has_no_result :
    ProofSuccIterator.done exProof
      (ProofSuccIterator.first exProof (ProofSuccIterator.ctor exB)).2 = some true ∧
    ProofSuccIterator.next exProof
      (ProofSuccIterator.first exProof (ProofSuccIterator.ctor exB)).2 = none ∧
    ProofSuccIterator.calls exProof [Call.first, Call.next, Call.next]
      (ProofSuccIterator.ctor exA) = some ⟨exA, some 2⟩ ∧
    ProofSuccIterator.done exProof ⟨exA, some 2⟩ = some true ∧
    ProofSuccIterator.next exProof ⟨exA, some 2⟩ = none ∧
    ProofSuccIterator.calls exProof [Call.first, Call.next, Call.next, Call.next]
      (ProofSuccIterator.ctor exA) = none := by
  decide

/-- C5: for every state `s`, `clone(s)` compares equal to `s` (in both directions): the
clone of a `ProofState` is a `ProofState` wrapping the same vertex with the same tags, and
the clone of a ghost state is a ghost state. -/
theorem C5_clone_compares_equal :
    (∀ s : State, State.compare s.clone s = 0 ∧ State.compare s s.clone = 0) ∧
    (∀ ps : ProofState, (State.proof ps).clone = State.proof ⟨ps.vertex, ps.tags⟩) ∧
    (∀ g : ProofGhostState, ∃ g1 : ProofGhostState, (State.ghost g).clone = State.ghost g1) := by
  refine ⟨?_, fun _ => rfl, fun _ => ⟨_, rfl⟩⟩
  intro s
  cases s with
  | proof ps =>
    simp [State.clone, ProofState.clone, State.compare, ProofState.compare]
  | ghost g =>
    simp [State.clone, ProofGhostState.clone, State.compare, ProofGhostState.compare]

/-- C6: `compare` is a total order on states (reflexive, antisymmetric in the sense that
swapping the arguments negates the result, transitive, and every two states are related),
under which two `ProofState`s compare equal if and only if they wrap vertices with equal
identity, every two ghost states compare equal, and a ghost state never compares equal to a
`ProofState`. -/
theorem C6_compare_total_order :
    (∀ s : State, State.compare s s = 0) ∧
    (∀ s t : State, State.compare t s = - State.compare s t) ∧
    (∀ s t u : State, State.compare s t ≤ 0 → State.compare t u ≤ 0 →
      State.compare s u ≤ 0) ∧
    (∀ s t u : State, State.compare s t = 0 → State.compare t u = 0 →
      State.compare s u = 0) ∧
    (∀ s t : State, State.compare s t ≤ 0 ∨ State.compare t s ≤ 0) ∧
    (∀ a b : ProofState,
      State.compare (State.proof a) (State.proof b) = 0 ↔ a.vertex.id = b.vertex.id) ∧
    (∀ g h : ProofGhostState, State.compare (State.ghost g) (State.ghost h) = 0) ∧
    (∀ (g : ProofGhostState) (a : ProofState),
      State.compare (State.ghost g) (State.proof a) ≠ 0 ∧
      State.compare (State.proof a) (State.ghost g) ≠ 0) := by
  refine ⟨?_, ?_, ?_, ?_, ?_, ?_, ?_, ?_⟩
  · intro s
    rw [State.compare_eq_rank]
    simp
  · intro s t
    rw [State.compare_eq_rank, State.compare_eq_rank]
    split_ifs <;> omega
  · intro s t u h1 h2
    rw [State.compare_eq_rank] at h1 h2 ⊢
    split_ifs at h1 h2 ⊢ <;> omega
  · intro s t u h1 h2
    rw [State.compare_eq_rank] at h1 h2 ⊢
    split_ifs at h1 h2 ⊢ <;> omega
  · intro s t
    rw [State.compare_eq_rank, State.compare_eq_rank]
    split_ifs <;> omega
  · intro a b
    rw [State.compare_eq_rank]
    simp only [State.rank]
    constructor
    · intro h
      split_ifs at h <;> omega
    · intro h
      split_ifs <;> omega
  · intro g h
    rfl
  · intro g a
    simp [State.compare, ProofState.compare, ProofGhostState.compare]

/-- Witness for C6: the states for `A`, `B`, `C` are ordered by identity, and transitivity
applies to them. -/
theorem C6_compare_total_order_witness :
    State.compare (wrap exProof exA) (wrap exProof exB) ≤ 0 ∧
    State.compare (wrap exProof exB) (wrap exProof exC) ≤ 0 ∧
    State.compare (wrap exProof exA) (wrap exProof exC) ≤ 0 :=
  ⟨by decide, by decide,
   C6_compare_total_order.2.2.1 (wrap exProof exA) (wrap exProof exB) (wrap exProof exC)
    (by decide) (by decide)⟩

/-- C7: `hash` is consistent with state equality: the hash of a `ProofState` is the integer
identity of its vertex, every ghost state hashes to the same constant (zero), two
`ProofState`s wrapping the same vertex have equal hashes whatever tags they carry, and two
`ProofState`s have equal hashes exactly when they wrap the same vertex. -/
theorem C7_hash_consistent_with_equality :
    (∀ ps : ProofState, (State.proof ps).hash = ps.vertex.id) ∧
    (∀ g : ProofGhostState, (State.ghost g).hash = 0) ∧
    (∀ g h : ProofGhostState, (State.ghost g).hash = (State.ghost h).hash) ∧
    (∀ (v : Vertex) (ts ts1 : TagVector),
      (State.proof ⟨v, ts⟩).hash = (State.proof ⟨v, ts1⟩).hash) ∧
    (∀ a b : ProofState,
      (State.proof a).hash = (State.proof b).hash ↔ a.vertex = b.vertex) := by
  refine ⟨fun _ => rfl, fun _ => rfl, fun _ _ => rfl, fun _ _ _ => rfl, ?_⟩
  intro a b
  obtain ⟨⟨ia⟩, ta⟩ := a
  obtain ⟨⟨ib⟩, tb⟩ := b
  simp [State.hash, ProofState.hash]

/-- C8: the ghost state is never produced as a destination. Whatever the cursor position of
a `ProofSuccIterator`, a state returned by `dst()` is a `ProofState`, never a ghost state,
and at every position that references a successor `dst()` does return one; in every state
of a `ProofGhostSuccIterator`, `dst()` returns a `ProofState`; cloning a `ProofState` gives
a `ProofState`; `get_init_state()` is what returns a ghost state. -/
theorem C8_dst_never_ghost (p : ProofAutomaton) :
    (∀ (it : ProofSuccIterator) (s : State), ProofSuccIterator.dst p it = some s →
      ∃ ps : ProofState, s = State.proof ps) ∧
    (∀ (it : ProofSuccIterator) (g : ProofGhostState),
      ProofSuccIterator.dst p it ≠ some (State.ghost g)) ∧
    (∀ (it : ProofSuccIterator) (i : Nat), it.successor = some i →
      i < (p.get_successors it.vertex).elems.length →
      ∃ ps : ProofState, ProofSuccIterator.dst p it = some (State.proof ps)) ∧
    (∀ it : ProofGhostSuccIterator,
      ∃ ps : ProofState, ProofGhostSuccIterator.dst p it = some (State.proof ps)) ∧
    (∀ (it : ProofGhostSuccIterator) (g : ProofGhostState),
      ProofGhostSuccIterator.dst p it ≠ some (State.ghost g)) ∧
    (∀ ps : ProofState, ∃ ps1 : ProofState, ps.clone = State.proof ps1) ∧
    (∀ a : FairProofAutomaton, ∃ g : ProofGhostState, a.get_init_state = State.ghost g) := by
  have hkind : ∀ (it : ProofSuccIterator) (s : State), ProofSuccIterator.dst p it = some s →
      ∃ ps : ProofState, s = State.proof ps := by
    intro it s h
    simp only [ProofSuccIterator.dst, Option.map_eq_some'] at h
    obtain ⟨v, _, hv⟩ := h
    exact ⟨_, hv.symm⟩
  refine ⟨hkind, ?_, ?_, ?_, ?_, ?_, ?_⟩
  · intro it g h
    obtain ⟨ps, hps⟩ := hkind it _ h
    cases hps
  · intro it i hi hlt
    obtain ⟨v, c⟩ := it
    simp only at hi hlt
    subst hi
    exact ⟨_, ProofSuccIterator.dst_of_lt p v i hlt⟩
  · intro it
    exact ⟨_, rfl⟩
  · intro it g h
    simp [ProofGhostSuccIterator.dst] at h
  · intro ps
    exact ⟨_, rfl⟩
  · intro a
    exact ⟨_, rfl⟩

/-- Witness for C8 on the scenario provider: at position 1 of the iterator over `A`, `dst()`
returns a `ProofState`. -/
theorem C8_dst_never_ghost_witness :
    ∃ ps : ProofState, ProofSuccIterator.dst exProof ⟨exA, some 1⟩ = some (State.proof ps) :=
  (C8_dst_never_ghost exProof).2.2.1 ⟨exA, some 1⟩ 1 rfl (by decide)

/-- C9, as stated, fails: on the scenario provider the ghost successor iterator is DONE
after `first()` and `next()`, and `dst()` called then still returns a state. -/
theorem C9_ghost_dst_when_done_counterexample :
    ProofGhostSuccIterator.done (ProofGhostSuccIterator.next
      (ProofGhostSuccIterator.first ProofGhostSuccIterator.ctor).2).2 = true ∧
    ¬ (ProofGhostSuccIterator.dst exProof (ProofGhostSuccIterator.next
      (ProofGhostSuccIterator.first ProofGhostSuccIterator.ctor).2).2 = none) := by
  decide

/-- C9, amended: `dst()` of the ghost successor iterator makes no check of the iterator's
state: in every state, DONE included, it returns the `ProofState` wrapping the provider's
initial vertex with its tags. -/
theorem C9_ghost_dst_ignores_state (p : ProofAutomaton) (it : ProofGhostSuccIterator) :
    ProofGhostSuccIterator.dst p it
      = some (State.proof ⟨p.get_initial_vertex, p.get_tags_of_vertex p.get_initial_vertex⟩) ∧
    ProofGhostSuccIterator.dst p (ProofGhostSuccIterator.next it).2
      = ProofGhostSuccIterator.dst p (ProofGhostSuccIterator.first it).2 :=
  ⟨rfl, rfl⟩

/-- C10: every transition of either iterator is marked with the full set of acceptance
marks: in every state of a `ProofGhostSuccIterator` and for every vertex and cursor position
of a `ProofSuccIterator`, `acc()` equals `all_sets()` of the provider's acceptance
condition; it is the same for any two iterators, whichever successor the cursor references,
and with the two acceptance sets fixed by the automaton's constructor it is the mark set
holding both sets. -/
theorem C10_acc_is_all_sets (p : ProofAutomaton) :
    (∀ it : ProofGhostSuccIterator, ProofGhostSuccIterator.acc p it = p.acc.all_sets) ∧
    (∀ it : ProofSuccIterator, ProofSuccIterator.acc p it = p.acc.all_sets) ∧
    (∀ it it1 : ProofSuccIterator, ProofSuccIterator.acc p it = ProofSuccIterator.acc p it1) ∧
    (∀ (it : ProofSuccIterator) (g : ProofGhostSuccIterator),
      ProofSuccIterator.acc p it = ProofGhostSuccIterator.acc p g) ∧
    (∀ n : Nat, (FairProofAutomaton.ctor n).acc.all_sets = 3) :=
  ⟨fun _ => rfl, fun _ => rfl, fun _ _ => rfl, fun _ _ => rfl, fun _ => rfl⟩

/-- C11: the transition condition identifies the destination. In every state of a
`ProofSuccIterator`, `dst()` is built from the very vertex `cond()` returns; at every
position that references a successor, `cond()` is that successor and `dst()` the
`ProofState` wrapping it with its tags; so two transitions out of the same vertex with equal
`cond()` have equal destination states (and are at the same position of the successor
set). -/
theorem C11_cond_identifies_destination (p : ProofAutomaton) :
    (∀ it : ProofSuccIterator,
      ProofSuccIterator.dst p it
        = (ProofSuccIterator.cond p it).map fun s => State.proof ⟨s, p.get_tags_of_vertex s⟩) ∧
    (∀ (it : ProofSuccIterator) (i : Nat), it.successor = some i →
      ∀ h : i < (p.get_successors it.vertex).elems.length,
      ProofSuccIterator.cond p it
        = some ((p.get_successors it.vertex).elems.get ⟨i, h⟩) ∧
      ProofSuccIterator.dst p it
        = some (State.proof ⟨(p.get_successors it.vertex).elems.get ⟨i, h⟩,
            p.get_tags_of_vertex ((p.get_successors it.vertex).elems.get ⟨i, h⟩)⟩)) ∧
    (∀ (it it1 : ProofSuccIterator) (i j : Nat), it.vertex = it1.vertex →
      it.successor = some i → i < (p.get_successors it.vertex).elems.length →
      it1.successor = some j → j < (p.get_successors it1.vertex).elems.length →
      ProofSuccIterator.cond p it = ProofSuccIterator.cond p it1 →
      ProofSuccIterator.dst p it = ProofSuccIterator.dst p it1 ∧
      (∃ s : State, ProofSuccIterator.dst p it = some s) ∧
      it.successor = it1.successor) := by
  refine ⟨fun _ => rfl, ?_, ?_⟩
  · intro it i hi h
    obtain ⟨v, c⟩ := it
    simp only at hi h
    subst hi
    refine ⟨?_, ProofSuccIterator.dst_of_lt p v i h⟩
    simp [ProofSuccIterator.cond, VertexSet.deref, List.getElem?_eq_getElem h]
  · intro it it1 i j hv hi h hj h1 hc
    obtain ⟨v, c⟩ := it
    obtain ⟨v1, c1⟩ := it1
    simp only at hv hi h hj h1
    subst hi
    subst hj
    subst hv
    have hd : ProofSuccIterator.dst p ⟨v, some i⟩ = ProofSuccIterator.dst p ⟨v, some j⟩ := by
      show (ProofSuccIterator.cond p ⟨v, some i⟩).map _
        = (ProofSuccIterator.cond p ⟨v, some j⟩).map _
      rw [hc]
    refine ⟨hd, ⟨_, ProofSuccIterator.dst_of_lt p v i h⟩, ?_⟩
    simp only [ProofSuccIterator.cond, VertexSet.deref, Option.some_bind] at hc
    have hij := List.getElem?_inj h (p.get_successors v).nodup hc
    rw [hij]

/-- Witness for C11 on the scenario provider: two iterators over `A` at position 1 have the
same condition, `C`, and the same destination. -/
theorem C11_cond_identifies_destination_witness :
    ProofSuccIterator.cond exProof ⟨exA, some 1⟩ = some exC ∧
    ProofSuccIterator.dst exProof ⟨exA, some 1⟩ = ProofSuccIterator.dst exProof ⟨exA, some 1⟩ ∧
    (∃ s : State, ProofSuccIterator.dst exProof ⟨exA, some 1⟩ = some s) :=
  ⟨((C11_cond_identifies_destination exProof).2.1 ⟨exA, some 1⟩ 1 rfl (by decide)).1,
   ((C11_cond_identifies_destination exProof).2.2 ⟨exA, some 1⟩ ⟨exA, some 1⟩ 1 1 rfl rfl
      (by decide) rfl (by decide) rfl).1,
   ((C11_cond_identifies_destination exProof).2.2 ⟨exA, some 1⟩ ⟨exA, some 1⟩ 1 1 rfl rfl
      (by decide) rfl (by decide) rfl).2.1⟩

/-- C12: `get_init_state()` returns a ghost state on every call. The value returned is a
ghost state; of two calls, with any objects `extra` created in between, each returns an
object that did not exist before that call, so the second result is not the first one;
both are ghost states, equal in value, that compare equal and have the same hash, and the
second call leaves the first object as it was. -/
theorem C12_get_init_state_fresh_ghost (a : FairProofAutomaton) (h : Heap)
    (extra : List State) :
    (∃ g : ProofGhostState, a.get_init_state = State.ghost g) ∧
    h.get (a.get_init_state_new h).1 = none ∧
    (Heap.mk ((a.get_init_state_new h).2.objs ++ extra)).get
      (a.get_init_state_new (Heap.mk ((a.get_init_state_new h).2.objs ++ extra))).1 = none ∧
    (a.get_init_state_new h).1
      ≠ (a.get_init_state_new (Heap.mk ((a.get_init_state_new h).2.objs ++ extra))).1 ∧
    (∃ g1 g2 : ProofGhostState,
      (a.get_init_state_new h).2.get (a.get_init_state_new h).1 = some (State.ghost g1) ∧
      (a.get_init_state_new (Heap.mk ((a.get_init_state_new h).2.objs ++ extra))).2.get
        (a.get_init_state_new h).1 = some (State.ghost g1) ∧
      (a.get_init_state_new (Heap.mk ((a.get_init_state_new h).2.objs ++ extra))).2.get
        (a.get_init_state_new (Heap.mk ((a.get_init_state_new h).2.objs ++ extra))).1
          = some (State.ghost g2) ∧
      State.ghost g1 = State.ghost g2 ∧
      State.compare (State.ghost g1) (State.ghost g2) = 0 ∧
      State.compare (State.ghost g2) (State.ghost g1) = 0 ∧
      (State.ghost g1).hash = (State.ghost g2).hash) := by
  refine ⟨⟨_, rfl⟩, Heap.get_alloc_before h _, Heap.get_alloc_before _ _, ?_,
    ⟨⟨⟩, ⟨⟩, ?_, ?_, ?_, rfl, rfl, rfl, rfl⟩⟩
  · simp only [FairProofAutomaton.get_init_state_new, Heap.alloc, List.length_append,
      List.length_singleton, ne_eq]
    omega
  · have := Heap.get_alloc h a.get_init_state []
    simpa [FairProofAutomaton.get_init_state_new, FairProofAutomaton.get_init_state]
      using this
  · have := Heap.get_alloc h a.get_init_state (extra ++ [a.get_init_state])
    simpa [FairProofAutomaton.get_init_state_new, FairProofAutomaton.get_init_state,
      Heap.alloc, Heap.get] using this
  · have := Heap.get_alloc (Heap.mk ((h.alloc a.get_init_state).2.objs ++ extra))
      a.get_init_state []
    simpa [FairProofAutomaton.get_init_state_new, FairProofAutomaton.get_init_state,
      Heap.alloc, Heap.get] using this

/-- C13: every `ProofState` the automaton produces carries the provider's tags of its own
vertex: a destination returned by `dst()` of either iterator has as tags
`get_tags_of_vertex` of its vertex, `clone` keeps vertex and tags and so preserves this,
hence it holds of every state handed out, and two `ProofState`s handed out that wrap the
same vertex carry the same tags (they are the same state value). Such destinations exist:
`dst()` of the ghost iterator returns one in every state, `dst()` of the vertex iterator at
every position that references a successor. -/
theorem C13_produced_states_carry_own_tags (p : ProofAutomaton) :
    (∀ (it : ProofGhostSuccIterator) (ps : ProofState),
      ProofGhostSuccIterator.dst p it = some (State.proof ps) →
      ps.tags = p.get_tags_of_vertex ps.vertex) ∧
    (∀ (it : ProofSuccIterator) (ps : ProofState),
      ProofSuccIterator.dst p it = some (State.proof ps) →
      ps.tags = p.get_tags_of_vertex ps.vertex) ∧
    (∀ ps : ProofState, ps.tags = p.get_tags_of_vertex ps.vertex →
      ∃ ps1 : ProofState, (State.proof ps).clone = State.proof ps1 ∧
        ps1.vertex = ps.vertex ∧ ps1.tags = p.get_tags_of_vertex ps1.vertex) ∧
    (∀ ps : ProofState, Produced p (State.proof ps) →
      ps.tags = p.get_tags_of_vertex ps.vertex) ∧
    (∀ ps1 ps2 : ProofState, Produced p (State.proof ps1) → Produced p (State.proof ps2) →
      ps1.vertex = ps2.vertex → ps1.tags = ps2.tags ∧ ps1 = ps2) ∧
    (∀ it : ProofGhostSuccIterator, ∃ ps : ProofState,
      ProofGhostSuccIterator.dst p it = some (State.proof ps) ∧
      ps.vertex = p.get_initial_vertex ∧ ps.tags = p.get_tags_of_vertex ps.vertex) ∧
    (∀ (it : ProofSuccIterator) (i : Nat), it.successor = some i →
      i < (p.get_successors it.vertex).elems.length →
      ∃ ps : ProofState, ProofSuccIterator.dst p it = some (State.proof ps) ∧
        ps.tags = p.get_tags_of_vertex ps.vertex) := by
  have hghost : ∀ (it : ProofGhostSuccIterator) (ps : ProofState),
      ProofGhostSuccIterator.dst p it = some (State.proof ps) →
      ps.tags = p.get_tags_of_vertex ps.vertex := by
    intro it ps h
    simp only [ProofGhostSuccIterator.dst, Option.some.injEq, State.proof.injEq] at h
    rw [← h]
  have hsucc : ∀ (it : ProofSuccIterator) (ps : ProofState),
      ProofSuccIterator.dst p it = some (State.proof ps) →
      ps.tags = p.get_tags_of_vertex ps.vertex := by
    intro it ps h
    simp only [ProofSuccIterator.dst, Option.map_eq_some', State.proof.injEq] at h
    obtain ⟨v, _, hv⟩ := h
    rw [← hv]
  have hprod : ∀ s : State, Produced p s → ∀ ps : ProofState, s = State.proof ps →
      ps.tags = p.get_tags_of_vertex ps.vertex := by
    intro s hs
    induction hs with
    | init a =>
      intro ps h
      cases h
    | ghost_dst it s h =>
      intro ps hps
      subst hps
      exact hghost it ps h
    | succ_dst it s h =>
      intro ps hps
      subst hps
      exact hsucc it ps h
    | clone s _ ih =>
      intro ps hps
      cases s with
      | proof ps0 =>
        have h0 := ih ps0 rfl
        simp only [State.clone, ProofState.clone, State.proof.injEq] at hps
        rw [← hps]
        exact h0
      | ghost g =>
        cases hps
  refine ⟨hghost, hsucc, ?_, fun ps h => hprod _ h ps rfl, ?_, ?_, ?_⟩
  · intro ps h
    exact ⟨⟨ps.vertex, ps.tags⟩, rfl, rfl, h⟩
  · intro ps1 ps2 h1 h2 hv
    have e1 := hprod _ h1 ps1 rfl
    have e2 := hprod _ h2 ps2 rfl
    have ht : ps1.tags = ps2.tags := by rw [e1, e2, hv]
    refine ⟨ht, ?_⟩
    cases ps1
    cases ps2
    simp only [ProofState.mk.injEq]
    exact ⟨hv, ht⟩
  · intro it
    exact ⟨_, rfl, rfl, rfl⟩
  · intro it i hi hlt
    obtain ⟨v, c⟩ := it
    simp only at hi hlt
    subst hi
    exact ⟨_, ProofSuccIterator.dst_of_lt p v i hlt, rfl⟩

/-- Witness for C13 on the scenario provider: the destination at position 0 of the iterator
over `A` is the state for `B`, it is handed out, and its tags are the provider's tags of
`B`. -/
theorem C13_produced_states_carry_own_tags_witness :
    Produced exProof (State.proof ⟨exB, [1, 7]⟩) ∧
    (⟨exB, [1, 7]⟩ : ProofState).tags = exProof.get_tags_of_vertex exB :=
  ⟨Produced.succ_dst ⟨exA, some 0⟩ _ (by decide),
   (C13_produced_states_carry_own_tags exProof).2.2.2.1 ⟨exB, [1, 7]⟩
    (Produced.succ_dst ⟨exA, some 0⟩ _ (by decide))⟩

/-- C14: from every cursor position of a `ProofSuccIterator` that references a successor,
`next()` returns, advances the cursor by exactly one position, keeps the vertex, and
returns true if and only if the new position is not the end of the successor set, that is,
when a further successor is referenced; whenever `next()` returns, this is how it moved the
cursor. In both iterators the boolean returned by `first()` and by `next()` is the negation
of `done()` evaluated right after the call. -/
theorem C14_next_advances_and_reports (p : ProofAutomaton) :
    (∀ (it : ProofSuccIterator) (i : Nat), it.successor = some i →
      i < (p.get_successors it.vertex).elems.length →
      ∃ (b : Bool) (it1 : ProofSuccIterator),
        ProofSuccIterator.next p it = some (b, it1) ∧
        it1.successor = some (i + 1) ∧
        it1.vertex = it.vertex ∧
        i + 1 ≤ (p.get_successors it.vertex).elems.length ∧
        (b = true ↔ i + 1 ≠ (p.get_successors it.vertex).elems.length) ∧
        (b = true ↔ i + 1 < (p.get_successors it.vertex).elems.length) ∧
        (b = false ↔ ProofSuccIterator.done p it1 = some true) ∧
        ProofSuccIterator.done p it1 = some (!b)) ∧
    (∀ (it : ProofSuccIterator) (b : Bool) (it1 : ProofSuccIterator),
      ProofSuccIterator.next p it = some (b, it1) →
      ProofSuccIterator.done p it1 = some (!b) ∧
      it1.vertex = it.vertex ∧
      ∃ i : Nat, it.successor = some i ∧ it1.successor = some (i + 1)) ∧
    (∀ it : ProofSuccIterator,
      ProofSuccIterator.done p (ProofSuccIterator.first p it).2
        = some (!(ProofSuccIterator.first p it).1)) ∧
    (∀ it : ProofGhostSuccIterator,
      (ProofGhostSuccIterator.first it).1
        = !ProofGhostSuccIterator.done (ProofGhostSuccIterator.first it).2 ∧
      (ProofGhostSuccIterator.next it).1
        = !ProofGhostSuccIterator.done (ProofGhostSuccIterator.next it).2) := by
  have hdone : ∀ (v : Vertex) (j : Nat),
      ProofSuccIterator.done p ⟨v, some j⟩ = some (!(!ProofSuccIterator.at_end p v j)) := by
    intro v j
    simp [ProofSuccIterator.done]
  refine ⟨?_, ?_, ?_, fun it => ⟨rfl, rfl⟩⟩
  · intro it i hi hlt
    obtain ⟨v, c⟩ := it
    simp only at hi hlt
    subst hi
    refine ⟨_, _, ProofSuccIterator.next_of_lt p v i hlt, rfl, rfl, Nat.succ_le_of_lt hlt,
      ?_, ?_, ?_, hdone v (i + 1)⟩
    · simp [ProofSuccIterator.at_end, VertexSet.end_]
    · simp only [ProofSuccIterator.at_end, VertexSet.end_, Bool.not_eq_true',
        beq_eq_false_iff_ne, ne_eq]
      omega
    · rw [ProofSuccIterator.done_iff]
      simp [ProofSuccIterator.at_end, VertexSet.end_]
  · intro it b it1 h
    obtain ⟨i, hi, _, hit1, hb⟩ := ProofSuccIterator.next_eq_some p it b it1 h
    subst hit1
    subst hb
    exact ⟨hdone it.vertex (i + 1), rfl, i, hi, rfl⟩
  · intro it
    exact hdone it.vertex 0

/-- Witness for C14 on the scenario provider: from position 0 of the iterator over `A`,
`next()` returns true and the cursor is at position 1 (which references `C`); from
position 1 it returns false and the iterator is DONE. -/
theorem C14_next_advances_and_reports_witness :
    (∃ (b : Bool) (it1 : ProofSuccIterator),
      ProofSuccIterator.next exProof ⟨exA, some 0⟩ = some (b, it1) ∧
      it1.successor = some 1 ∧ b = true) ∧
    (∃ (b : Bool) (it1 : ProofSuccIterator),
      ProofSuccIterator.next exProof ⟨exA, some 1⟩ = some (b, it1) ∧
      ProofSuccIterator.done exProof it1 = some (!b)) := by
  obtain ⟨b, it1, h1, h2, _, _, _, h6, _, _⟩ :=
    (C14_next_advances_and_reports exProof).1 ⟨exA, some 0⟩ 0 rfl (by decide)
  obtain ⟨c, it2, k1, _, _, _, _, _, _, k8⟩ :=
    (C14_next_advances_and_reports exProof).1 ⟨exA, some 1⟩ 1 rfl (by decide)
  exact ⟨⟨b, it1, h1, h2, h6.2 (by decide)⟩, ⟨c, it2, k1, k8⟩⟩

end FairProofAut
